import Mathlib

/-!
Verification of the multipart/form-data parsing subsystem of the
werkzeug repository (`src/werkzeug/formparser.py`,
`src/werkzeug/datastructures.py`) against its natural-language
specification.

Byte strings are modelled as `List Nat` (one `Nat` per byte); text
strings as Lean `String`/`List Char`.  Python's fallible operations are
modelled with `Except`.  The functions named below each embed the
source function of the same name.
-/

namespace Werkzeug

/-- Decidable equality for `Except`, so concrete parser runs can be
settled by `decide`. -/
instance {ε α : Type} [DecidableEq ε] [DecidableEq α] :
    DecidableEq (Except ε α) := fun x y =>
  match x, y with
  | .error a, .error b =>
    if h : a = b then isTrue (h ▸ rfl)
    else isFalse fun hh => h (Except.error.inj hh)
  | .ok a, .ok b =>
    if h : a = b then isTrue (h ▸ rfl)
    else isFalse fun hh => h (Except.ok.inj hh)
  | .error _, .ok _ => isFalse fun h => Except.noConfusion h
  | .ok _, .error _ => isFalse fun h => Except.noConfusion h

/-- A byte string: one `Nat` per byte. -/
abbrev Bytes := List Nat

/-- Python's byte-level whitespace set used by `bytes.rstrip()` with no
arguments: `b" \t\n\r\x0b\x0c"`. -/
def isSpaceByte (b : Nat) : Bool :=
  b = 32 || b = 9 || b = 10 || b = 13 || b = 11 || b = 12

/-- `line.rstrip()` on bytes: remove all trailing whitespace bytes. -/
def rstripWS (l : Bytes) : Bytes :=
  (l.reverse.dropWhile isSpaceByte).reverse

/-- `line.rstrip(b"\r\n")`: remove only trailing CR and LF bytes. -/
def rstripCRLF (l : Bytes) : Bytes :=
  (l.reverse.dropWhile (fun b => b = 13 || b = 10)).reverse

/-- Auxiliary for `bytes.splitlines(keepends=True)`: `cur` is the
current line accumulated in reverse.  Line boundaries for Python byte
strings are `\r\n`, `\r`, and `\n`, kept attached to the line they
end. -/
def slkAux : List Nat → List Nat → List (List Nat)
  | cur, [] => if cur.isEmpty then [] else [cur.reverse]
  | cur, 13 :: 10 :: rest => (cur.reverse ++ [13, 10]) :: slkAux [] rest
  | cur, 13 :: rest => (cur.reverse ++ [13]) :: slkAux [] rest
  | cur, 10 :: rest => (cur.reverse ++ [10]) :: slkAux [] rest
  | cur, b :: rest => slkAux (b :: cur) rest

/-- `input_buffer.splitlines(True)` for byte strings. -/
def splitlinesKeepends (xs : Bytes) : List Bytes :=
  slkAux [] xs

/-- Python's `line[-1:] in b"\r\n"`: the final byte is CR or LF.  For an
empty `line` the slice is `b""`, which is a substring of `b"\r\n"`, so
the test is `true`. -/
def lastInCRLF (l : Bytes) : Bool :=
  match l.getLast? with
  | none => true
  | some b => b = 13 || b = 10

/-- Python's `line[-2:]` on bytes. -/
def pyLast2 (l : Bytes) : Bytes :=
  l.drop (l.length - 2)

/-- Python's `line[:-2]` on bytes. -/
def pyDropLast2 (l : Bytes) : Bytes :=
  l.take (l.length - 2)

/-! ## LineSplitter

Embeds `MultiPartParser.LineSplitter` (formparser.py).  Every
construction of this class in the repository (`parse_parts`, which calls
`self.LineSplitter()`) uses the default `cap=None`, so the embedding
covers that configuration; the `if self.cap:` branch of `_split_lines`
is dead code for the parser pipeline and is not modelled. -/

structure LineSplitter where
  /-- `self._leftover_buffer`: bytes of an incomplete final line kept
  for the next `feed` call. -/
  leftover : Bytes
deriving Repr, DecidableEq

/-- Fresh `LineSplitter()`. -/
def LineSplitter.init : LineSplitter := ⟨[]⟩

/-- `LineSplitter._split_lines` with `cap=None`: iterate the segments of
`splitlines(True)`; a segment ending in CR/LF is yielded, any other
segment (only the last can be one) is stored as the leftover buffer and
`b""` is yielded in its place.  Returns the updated leftover buffer and
the yielded sequence. -/
def splitLinesNoCap (leftover0 : Bytes) (input_buffer : Bytes) :
    Bytes × List Bytes :=
  (splitlinesKeepends input_buffer).foldl
    (fun acc line =>
      if lastInCRLF line then (acc.1, acc.2 ++ [line])
      else (line, acc.2 ++ [[]]))
    (leftover0, [])

/-- `LineSplitter.feed`: on an empty chunk, first yield the leftover
buffer (unfiltered); then prepend the leftover to the chunk, split, and
yield the non-empty produced lines.  Note the source never resets
`self._leftover_buffer` when the pending line completes. -/
def LineSplitter.feed (s : LineSplitter) (input : Bytes) :
    LineSplitter × List Bytes :=
  let pre : List Bytes := if input.isEmpty then [s.leftover] else []
  let buffer := s.leftover ++ input
  let (lo, lines) := splitLinesNoCap s.leftover buffer
  (⟨lo⟩, pre ++ lines.filter (fun l => !l.isEmpty))

/-- Feed a sequence of chunks to one splitter, collecting every yielded
line in order. -/
def LineSplitter.feedAll (s : LineSplitter) (chunks : List Bytes) :
    LineSplitter × List Bytes :=
  chunks.foldl
    (fun acc c =>
      let (s', ls) := acc.1.feed c
      (s', acc.2 ++ ls))
    (s, [])

/-- All lines emitted when the chunks are fed to a fresh splitter. -/
def splitterRun (chunks : List Bytes) : List Bytes :=
  (LineSplitter.init.feedAll chunks).2

/-! ## Errors

Exceptions raised by the parser (`self.parent.fail(...)` /
`self.fail(...)` raise `ValueError`; `in_memory_threshold_reached`
raises `RequestEntityTooLarge`).  One constructor per distinct raise
site / message. -/

inductive PErr where
  /-- `fail("Missing boundary")` in `validate_boundary`. -/
  | missingBoundary
  /-- `fail("Invalid boundary: ...")` in `validate_boundary`. -/
  | invalidBoundary
  /-- `fail("Boundary longer than buffer size")` in `validate_boundary`. -/
  | boundaryTooLong
  /-- `fail("unexpected end of file")` / `fail("Unexpected end of file")`. -/
  | unexpectedEOF
  /-- `fail("Expected boundary at start of multipart data")`. -/
  | expectedBoundary
  /-- `"unexpected end of line in multipart header"`. -/
  | unexpectedEOLHeader
  /-- `fail("missing Content-Disposition header")`. -/
  | missingDisposition
  /-- `fail("Could not decode transfer-encoded chunk")`. -/
  | decodeFailed
  /-- `exceptions.RequestEntityTooLarge()` from
  `in_memory_threshold_reached`. -/
  | requestEntityTooLarge
  /-- Python `ValueError` from unpacking a non-pair yielded object in
  the `for ellt, ell in line_parser.feed(line)` loop of `parse_parts`. -/
  | unpackError
  /-- Python `NameError`: a local of the `parse_parts` loop
  (`container`, `guard_memory`, `is_file`, ...) used before any
  `begin_*` event assigned it. -/
  | nameError
  /-- Python `TypeError` (e.g. comparing an int with `None`). -/
  | typeError
deriving Repr, DecidableEq

/-! ## Text helpers

Header lines are decoded to `str` by `_to_str` and manipulated with
Python string operations; modelled on `List Char`. -/

/-- Python's string whitespace as used by `str.strip()` with no
arguments, restricted to ASCII: `" \t\n\r\x0b\x0c"` (header data is
ASCII, so the non-ASCII Unicode whitespace stripped by Python never
occurs). -/
def isSpaceChar (c : Char) : Bool :=
  c = ' ' || c = '\t' || c = '\n' || c = '\r' ||
  c = Char.ofNat 11 || c = Char.ofNat 12

/-- `s.strip()` on a string. -/
def stripChars (cs : List Char) : List Char :=
  ((cs.dropWhile isSpaceChar).reverse.dropWhile isSpaceChar).reverse

/-- Modelled from the spec: `_to_str` (from `werkzeug._internal`, whose
source file is not in the provided sources) decodes a byte line to
text.  On the ASCII data the parser handles, each byte maps to the
character with the same code. -/
def toStr (l : Bytes) : List Char :=
  l.map Char.ofNat

/-- `_line_parse(line)` (formparser.py): remove the line-ending
characters, reporting whether the line was terminated. -/
def line_parse (line : List Char) : List Char × Bool :=
  if line.drop (line.length - 2) = ['\r', '\n'] then
    (line.take (line.length - 2), true)
  else if line.drop (line.length - 1) = ['\r'] ||
      line.drop (line.length - 1) = ['\n'] then
    (line.take (line.length - 1), true)
  else (line, false)

/-- `line.split(":", 1)`: split at the first colon; `none` when the
line holds no colon (Python then returns a one-element list). -/
def splitColonOnce (cs : List Char) : Option (List Char × List Char) :=
  if cs.contains ':' then
    some (cs.takeWhile (fun c => c ≠ ':'), (cs.dropWhile (fun c => c ≠ ':')).drop 1)
  else none

/-! ## Headers (datastructures.py)

`Headers` stores `self._list : List[Tuple[str, str]]`; modelled as
`List (String × String)`. -/

/-- Python's `str.lower()` on one character, ASCII range (header keys
and the keys compared by `Headers` are ASCII). -/
def pyLowerChar (c : Char) : Char :=
  if 'A' ≤ c && c ≤ 'Z' then Char.ofNat (c.toNat + 32) else c

/-- Python's `str.lower()` (ASCII). -/
def pyLower (s : String) : String :=
  String.mk (s.toList.map pyLowerChar)

/-- The key-lowering applied by `Headers.__eq__`:
`(item[0].lower(),) + item[1:]`. -/
def lowered (p : String × String) : String × String :=
  (pyLower p.1, p.2)

/-- `Headers.__eq__`: Python builds `set(map(lowered, ...))` for both
sides and compares the sets — equality of the underlying *sets* of
lowered pairs, i.e. mutual membership.  (The `other.__class__ is
self.__class__` guard holds for two `Headers`.) -/
def headersEqPy (a b : List (String × String)) : Bool :=
  (a.map lowered).all (fun p => (b.map lowered).contains p) &&
  (b.map lowered).all (fun p => (a.map lowered).contains p)

/-- `Headers.__getitem__` in get mode / `Headers.get(key)`: first pair
whose key matches case-insensitively, or `none`. -/
def headersGet (hs : List (String × String)) (key : String) : Option String :=
  (hs.find? (fun p => pyLower p.1 = pyLower key)).map (·.2)

/-- Does this pair's key match `key` case-insensitively (the
`old_key.lower() == ikey` test of `Headers.set`)? -/
def matchesKey (key : String) (p : String × String) : Bool :=
  pyLower p.1 = pyLower key

/-- `Headers.set(key, value)` on the underlying pair list: scan for the
first pair whose key matches case-insensitively; replace it in place
and delete every later matching pair (`self._list[idx + 1:] = [t for t
in listiter if t[0].lower() != ikey]`); when no pair matches, append
`(key, value)` at the end (this also covers the `if not self._list`
fast path). -/
def hset (key val : String) : List (String × String) → List (String × String)
  | [] => [(key, val)]
  | p :: rest =>
    if matchesKey key p then
      (key, val) :: rest.filter (fun t => !matchesKey key t)
    else
      p :: hset key val rest

/-! ## Module-level formparser functions -/

/-- `is_valid_multipart_boundary` (formparser.py): match against
`^[ -~]{0,200}[!-~]$` — up to 200 printable-ASCII characters followed by
one non-space printable character.  Python's `$` (without `re.M`) also
matches just before one trailing `"\n"`, which the model reproduces. -/
def is_valid_multipart_boundary (boundary : Bytes) : Bool :=
  let t := if boundary.getLast? = some 10 then boundary.dropLast else boundary
  match t.getLast? with
  | none => false
  | some c =>
    t.length ≤ 201 && (t.dropLast.all (fun b => 32 ≤ b && b ≤ 126)) &&
      (33 ≤ c && c ≤ 126)

/-- `MultiPartParser` configuration fields used by the modelled code. -/
structure MPConfig where
  max_form_memory_size : Option Nat := none
  buffer_size : Nat := 64 * 1024
deriving Repr, DecidableEq

/-- `MultiPartParser.validate_boundary`: empty → "Missing boundary";
regex failure → "Invalid boundary"; longer than the buffer →
"Boundary longer than buffer size". -/
def validate_boundary (cfg : MPConfig) (boundary : Bytes) : Except PErr Unit :=
  if boundary.isEmpty then .error .missingBoundary
  else if !is_valid_multipart_boundary boundary then .error .invalidBoundary
  else if boundary.length > cfg.buffer_size then .error .boundaryTooLong
  else .ok ()

/-- `MultiPartParser._fix_ie_filename`: when the name looks like a
Windows absolute path (`filename[1:3] == ":\\"` or
`filename[:2] == "\\\\"`), keep only `filename.split("\\")[-1]`. -/
def fix_ie_filename (filename : List Char) : List Char :=
  if ((filename.drop 1).take 2 = [':', '\\']) ||
      (filename.take 2 = ['\\', '\\']) then
    ((filename.splitOn '\\').getLast?).getD []
  else filename

/-- Loop body of `parse_multipart_headers` (formparser.py): each line is
decoded, `_line_parse`d (unterminated lines are an error), a blank line
breaks, a line starting with space or tab folds into the previous
header as `f"{value}\n {line[1:]}"` when one exists, and a `key: value`
line appends a stripped pair.  Exhausting the iterable ends the loop. -/
def pmhLoop : List Bytes → List (String × String) →
    Except PErr (List (String × String))
  | [], result => .ok result
  | line :: rest, result =>
    let s := toStr line
    let (l, terminated) := line_parse s
    if !terminated then .error .unexpectedEOLHeader
    else if l.isEmpty then .ok result
    else if (l.head? = some ' ' || l.head? = some '\t') && !result.isEmpty then
      match result.getLast? with
      | some (key, value) =>
        pmhLoop rest
          (result.dropLast ++
            [(key, value ++ "\n " ++ String.mk (l.drop 1))])
      | none => pmhLoop rest result
    else
      match splitColonOnce l with
      | some (k, v) =>
        pmhLoop rest
          (result ++ [(String.mk (stripChars k), String.mk (stripChars v))])
      | none => pmhLoop rest result

/-- `parse_multipart_headers(iterable)`: run the loop on an empty
accumulator; the result list becomes the `Headers`. -/
def parse_multipart_headers (lines : List Bytes) :
    Except PErr (List (String × String)) :=
  pmhLoop lines []

/-! ## LineParser (MultiPartParser.LineParser)

The per-line state machine.  `parse_options_header` (http.py) and the
`codecs` transfer-decoders are external collaborators of this state
machine (the spec scopes HTTP header *value* grammars and
transfer-codecs out as interfaces), so the embedding takes them as
parameters; none of the theorems below depend on their behaviour. -/

/-- `ParseEnums` (formparser.py). -/
inductive ParseEnums where
  | PRE_TERM
  | HEADERS
  | OUTPUT
  | DONE
deriving Repr, DecidableEq

/-- External collaborators used by the state machine. -/
structure Ext where
  /-- `parse_options_header(value)` from http.py: returns the main
  value and the option dictionary (as an association list). -/
  poh : String → String × List (String × String)
  /-- `codec.decode(line)` for a looked-up transfer codec. -/
  codecDecode : String → Bytes → Except Unit Bytes

/-- Values yielded by `LineParser.feed`.  The first four are the
`(type, payload)` event tuples; `raw` is the bare line object returned
by `_state_done` (not an event tuple); `headersOut` is the `Headers`
object returned in headers-only mode. -/
inductive LPOutput where
  | begin_file (headers : List (String × String))
      (name : Option String) (filename : String)
  | begin_form (headers : List (String × String)) (name : Option String)
  | cont (payload : Bytes)
  | end_part
  | raw (line : Bytes)
  | headersOut (headers : List (String × String))
deriving Repr, DecidableEq

/-- The mutable fields of `MultiPartParser.LineParser`. -/
structure LineParser where
  boundary : Bytes
  state_enum : ParseEnums
  /-- `self._headers`: accumulated `(key, value)` pairs. -/
  headers : List (String × String)
  /-- `self._headers_only`. -/
  headers_only : Bool
  /-- `self._tail`: withheld newline bytes. -/
  tail : Bytes
  /-- `self._name` (set when a part's headers finalize). -/
  name : Option String
  /-- `self._filename`. -/
  filename : Option String
  /-- `self._codec`: name of the looked-up transfer codec. -/
  codec : Option String
deriving Repr, DecidableEq

/-- `self._next_part = b"--" + boundary`. -/
def LineParser.next_part (p : LineParser) : Bytes :=
  [45, 45] ++ p.boundary

/-- `self._last_part = self._next_part + b"--"`. -/
def LineParser.last_part (p : LineParser) : Bytes :=
  p.next_part ++ [45, 45]

/-- `LineParser(parent, boundary)`. -/
def LineParser.init (boundary : Bytes) : LineParser :=
  ⟨boundary, .PRE_TERM, [], false, [], none, none, none⟩

/-- `_state_pre_term`: empty line → "unexpected end of file"; strip
trailing CR/LF; blank → stay; last part → `DONE`; next part →
`HEADERS`; anything else → "Expected boundary at start of multipart
data".  Never yields an output. -/
def LineParser.state_pre_term (p : LineParser) (line : Bytes) :
    Except PErr (LineParser × Option LPOutput) :=
  if line.isEmpty then .error .unexpectedEOF
  else
    let l := rstripCRLF line
    if l.isEmpty then .ok ({ p with state_enum := .PRE_TERM }, none)
    else if l = p.last_part then .ok ({ p with state_enum := .DONE }, none)
    else if l = p.next_part then .ok ({ p with state_enum := .HEADERS }, none)
    else .error .expectedBoundary

/-- `_state_headers`: decode the line, `_line_parse` it (unterminated →
error); a blank line finalizes the headers (headers-only mode returns
them; otherwise `Content-Disposition` is required and parsed through
`parse_options_header`, the transfer codec is looked up, and a
`begin_file`/`begin_form` event is emitted while moving to `OUTPUT`); a
line whose first character is a tab folds into the last header as
`value + "\n" + line[1:]` when headers exist; otherwise a `key: value`
line appends a stripped pair and anything else is dropped. -/
def LineParser.state_headers (ext : Ext) (p : LineParser) (line : Bytes) :
    Except PErr (LineParser × Option LPOutput) :=
  let s := toStr line
  let (l, terminated) := line_parse s
  if !terminated then .error .unexpectedEOLHeader
  else if l.isEmpty then
    if p.headers_only then
      .ok ({ p with state_enum := .DONE },
        if p.headers.isEmpty then none else some (.headersOut p.headers))
    else
      match headersGet p.headers "content-disposition" with
      | none => .error .missingDisposition
      | some disposition =>
        let extra := (ext.poh disposition).2
        let transfer_encoding :=
          match headersGet p.headers "content-transfer-encoding" with
          | some te =>
            if te = "base64" || te = "quoted-printable" then some te else none
          | none => none
        -- `codecs.lookup` succeeds for both supported encodings
        -- ("base64" is looked up as "base64_codec").
        let codec :=
          match transfer_encoding with
          | some te => some (if te = "base64" then te ++ "_codec" else te)
          | none => p.codec
        let name := (extra.find? (fun q => q.1 = "name")).map (·.2)
        let filename := (extra.find? (fun q => q.1 = "filename")).map (·.2)
        let p' := { p with state_enum := .OUTPUT, codec := codec,
                           name := name, filename := filename }
        match filename with
        | some f => .ok (p', some (.begin_file p.headers name f))
        | none => .ok (p', some (.begin_form p.headers name))
  else if l.head? = some '\t' && !p.headers.isEmpty then
    match p.headers.getLast? with
    | some (key, value) =>
      .ok ({ p with headers :=
        p.headers.dropLast ++ [(key, value ++ "\n" ++ String.mk (l.drop 1))] },
        none)
    | none => .ok (p, none)
  else
    match splitColonOnce l with
    | some (k, v) =>
      .ok ({ p with headers :=
        p.headers ++ [(String.mk (stripChars k), String.mk (stripChars v))] },
        none)
    | none => .ok (p, none)

/-- `_state_output`: empty line → "Unexpected end of file"; the line
with **all** trailing whitespace stripped (`line.rstrip()`) is compared
with the two boundary forms (last part → `DONE`, next part → reset
headers and go to `HEADERS`, both emitting `end` and clearing the
tail); otherwise the line is content: transfer-decode it when a codec
is active, then withhold its trailing terminator as the new tail and
emit the previous tail plus the line without its terminator. -/
def LineParser.state_output (ext : Ext) (p : LineParser) (line : Bytes) :
    Except PErr (LineParser × Option LPOutput) :=
  if line.isEmpty then .error .unexpectedEOF
  else
    let stripped_line := rstripWS line
    if stripped_line = p.last_part then
      .ok ({ p with tail := [], state_enum := .DONE }, some .end_part)
    else if stripped_line = p.next_part then
      .ok ({ p with tail := [], headers := [], state_enum := .HEADERS },
        some .end_part)
    else
      match (match p.codec with
             | some c => ext.codecDecode c line
             | none => Except.ok line : Except Unit Bytes) with
      | .error _ => .error .decodeFailed
      | .ok line =>
        let tail := p.tail
        if pyLast2 line = [13, 10] then
          .ok ({ p with tail := [13, 10] },
            some (.cont (tail ++ pyDropLast2 line)))
        else if lastInCRLF line then
          .ok ({ p with tail := line.drop (line.length - 1) },
            some (.cont (tail ++ line.take (line.length - 1))))
        else
          .ok ({ p with tail := [] }, some (.cont (tail ++ line)))

/-- `LineParser.feed(line)`: dispatch on the current state and yield
the state function's return value when it is truthy (`_state_done`
returns the line itself, yielded only when non-empty; event tuples are
always truthy; a `Headers` return is truthy when non-empty). -/
def LineParser.feed (ext : Ext) (p : LineParser) (line : Bytes) :
    Except PErr (LineParser × List LPOutput) :=
  match p.state_enum with
  | .PRE_TERM =>
    (p.state_pre_term line).map (fun r => (r.1, r.2.toList))
  | .HEADERS =>
    (LineParser.state_headers ext p line).map (fun r => (r.1, r.2.toList))
  | .OUTPUT =>
    (LineParser.state_output ext p line).map (fun r => (r.1, r.2.toList))
  | .DONE =>
    .ok (p, if line.isEmpty then [] else [.raw line])

/-- Feed several lines in order, collecting every yielded value. -/
def LineParser.feedLines (ext : Ext) (p : LineParser) (lines : List Bytes) :
    Except PErr (LineParser × List LPOutput) :=
  match lines with
  | [] => .ok (p, [])
  | l :: rest => do
    let (p', outs) ← p.feed ext l
    let (p'', outs') ← p'.feedLines ext rest
    .ok (p'', outs ++ outs')

/-! ## parse_parts / parse (MultiPartParser)

`parse_parts` reads the stream in `buffer_size` blocks, feeds each
block through one `LineSplitter` and one `LineParser`, and consumes the
yielded values with a local-variable event loop.  The stream is
modelled as the list of successive `file.read(buffer_size)` results;
once the list is exhausted the read returns `b""` (EOF), which the real
loop still processes before breaking. -/

/-- The local variables of the `parse_parts` event loop.  Each is
`none` until the first `begin_*` event assigns it (using one before
that is a Python `NameError`). -/
structure PartsState where
  in_memory : Nat
  is_file : Option Bool
  guard_memory : Option Bool
  /-- The active sink: the list of chunks written to it. -/
  container : Option (List Bytes)
  name : Option (Option String)
  /-- The (IE-fixed) filename of the active file part. -/
  filename : Option String
  headers : Option (List (String × String))
deriving Repr, DecidableEq

def PartsState.init : PartsState :=
  ⟨0, none, none, none, none, none, none⟩

/-- `FileStorage(container, filename, name, headers=headers)` as built
by `parse_parts` at the end of a file part: the (seek-rewound) sink
content plus the metadata. -/
structure FileStorage where
  stream : Bytes
  filename : String
  name : Option String
  headers : List (String × String)
deriving Repr, DecidableEq

/-- Results yielded by `parse_parts`: `("file", (name, FileStorage))`
and `("form", (name, value))`.  The form value is kept as the joined
byte content (its `.decode(part_charset, errors)` is an external text
codec, the identity byte-to-char map on the ASCII data modelled
here). -/
inductive PartOut where
  | file (name : Option String) (storage : FileStorage)
  | form (name : Option String) (value : Bytes)
deriving Repr, DecidableEq

/-- One iteration of the `for ellt, ell in line_parser.feed(line)` loop
of `parse_parts`.  `begin_file` runs `start_file_streaming` (which
applies `_fix_ie_filename` and obtains a fresh sink); `begin_form`
starts an in-memory accumulator and arms the memory guard iff
`max_form_memory_size` is configured; `cont` writes and, when guarded,
grows `in_memory` and raises `RequestEntityTooLarge` past the limit;
`end` yields the finished part.  A yielded object that is not an event
tuple is unpacked by the `for` target: length two unpacks silently into
values matching no branch, any other length raises `ValueError`. -/
def ppConsume (cfg : MPConfig) (st : PartsState) (o : LPOutput) :
    Except PErr (PartsState × List PartOut) :=
  match o with
  | .begin_file hs n f =>
    let fixed := String.mk (fix_ie_filename f.toList)
    .ok ({ st with
            is_file := some true
            guard_memory := some false
            container := some []
            name := some n
            filename := some fixed
            headers := some hs }, [])
  | .begin_form hs n =>
    .ok ({ st with
            is_file := some false
            container := some []
            guard_memory := some cfg.max_form_memory_size.isSome
            name := some n
            headers := some hs }, [])
  | .cont ell =>
    match st.container, st.guard_memory with
    | some c, some g =>
      let st1 := { st with container := some (c ++ [ell]) }
      if g then
        let im := st.in_memory + ell.length
        match cfg.max_form_memory_size with
        | some m =>
          if im > m then .error .requestEntityTooLarge
          else .ok ({ st1 with in_memory := im }, [])
        | none => .error .typeError
      else .ok (st1, [])
    | _, _ => .error .nameError
  | .end_part =>
    match st.is_file with
    | none => .error .nameError
    | some true =>
      match st.name, st.filename, st.container, st.headers with
      | some n, some f, some c, some hs => .ok (st, [.file n ⟨c.flatten, f, n, hs⟩])
      | _, _, _, _ => .error .nameError
    | some false =>
      match st.name, st.container with
      | some n, some c => .ok (st, [.form n c.flatten])
      | _, _ => .error .nameError
  | .raw l => if l.length = 2 then .ok (st, []) else .error .unpackError
  | .headersOut hs =>
    if hs.length = 2 then .ok (st, []) else .error .unpackError

/-- Consume a sequence of yielded values in order. -/
def ppRunEvents (cfg : MPConfig) (st : PartsState) (evs : List LPOutput) :
    Except PErr (PartsState × List PartOut) :=
  match evs with
  | [] => .ok (st, [])
  | e :: rest => do
    let (st', outs) ← ppConsume cfg st e
    let (st'', outs') ← ppRunEvents cfg st' rest
    .ok (st'', outs ++ outs')

/-- Process one `file.read` result: split it into lines and drive the
line parser and the event loop over each line. -/
def ppProcessChunk (ext : Ext) (cfg : MPConfig) (sp : LineSplitter)
    (lp : LineParser) (st : PartsState) (buffer : Bytes) :
    Except PErr (LineSplitter × LineParser × PartsState × List PartOut) := do
  let (sp', lines) := sp.feed buffer
  let r ← lines.foldlM
    (fun (acc : LineParser × PartsState × List PartOut) line => do
      let (lp0, st0, outs) := acc
      let (lp1, evs) ← lp0.feed ext line
      let (st1, outs') ← ppRunEvents cfg st0 evs
      pure (lp1, st1, outs ++ outs'))
    ((lp, st, []) : LineParser × PartsState × List PartOut)
  pure (sp', r.1, r.2.1, r.2.2)

/-- The `while True` loop of `parse_parts`: read a block, process it,
break after processing an empty block (EOF). -/
def ppLoop (ext : Ext) (cfg : MPConfig) :
    List Bytes → LineSplitter → LineParser → PartsState →
    Except PErr (List PartOut)
  | [], sp, lp, st =>
    -- the stream is exhausted: `file.read` returns `b""`, which is
    -- processed and then breaks the loop
    (ppProcessChunk ext cfg sp lp st []).map (fun r => r.2.2.2)
  | c :: rest, sp, lp, st => do
    let (sp', lp', st', outs) ← ppProcessChunk ext cfg sp lp st c
    if c.isEmpty then pure outs
    else (ppLoop ext cfg rest sp' lp' st').map (fun outs' => outs ++ outs')

/-- `MultiPartParser.parse_parts(file, boundary, content_length)` over
the given sequence of reads.  Note: no boundary validation happens
anywhere on this path. -/
def parse_parts (ext : Ext) (cfg : MPConfig) (chunks : List Bytes)
    (boundary : Bytes) : Except PErr (List PartOut) :=
  ppLoop ext cfg chunks LineSplitter.init (LineParser.init boundary)
    PartsState.init

/-- `MultiPartParser.parse(file, boundary, content_length)`: tee the
`parse_parts` stream and collect the `"form"` payloads and the
`"file"` payloads, in order, into the two result containers.  The
source `parse` performs no boundary validation and no other check
before iterating `parse_parts`. -/
def parse (ext : Ext) (cfg : MPConfig) (chunks : List Bytes)
    (boundary : Bytes) :
    Except PErr (List (Option String × Bytes) ×
      List (Option String × FileStorage)) :=
  (parse_parts ext cfg chunks boundary).map (fun outs =>
    (outs.filterMap (fun o => match o with
      | .form n v => some (n, v)
      | _ => none),
     outs.filterMap (fun o => match o with
      | .file n fs => some (n, fs)
      | _ => none)))

/-- A trivial instantiation of the external collaborators, used for
concrete runs that never reach them. -/
def extDummy : Ext :=
  ⟨fun s => (s, []), fun _ l => .ok l⟩

/-- ASCII bytes of a string (all parser inputs here are ASCII). -/
def strBytes (s : String) : Bytes :=
  s.toList.map Char.toNat

/-- The claim's reading of `filename.split("\\")[-1]`: the last
backslash-separated component of a name — everything after the last
backslash, or the whole name when it holds no backslash.  Stated
independently of `List.splitOn` so that the slicing behaviour of the
source can be compared against it. -/
def lastComponentSpec : List Char → List Char
  | [] => []
  | c :: rest =>
    if c = '\\' then lastComponentSpec rest
    else if '\\' ∈ rest then lastComponentSpec rest
    else c :: rest

/-! ## Theorems -/

/-- Helper: `filter p` of a `filter (not p)` result is empty. -/
theorem filter_not_filter {α : Type} (p : α → Bool) (l : List α) :
    List.filter p (List.filter (fun a => !p a) l) = [] := by
  induction l with
  | nil => rfl
  | cons a l ih => by_cases h : p a <;> simp [List.filter_cons, h, ih]

/-- Helper: `filter` is idempotent. -/
theorem filter_idem {α : Type} (p : α → Bool) (l : List α) :
    List.filter p (List.filter p l) = List.filter p l := by
  induction l with
  | nil => rfl
  | cons a l ih => by_cases h : p a <;> simp [List.filter_cons, h, ih]

/-- Helper: stripping all trailing whitespace from a line of the shape
`--boundary--\r\n` leaves exactly `--boundary--`. -/
theorem rstripWS_boundaryLine (b : Bytes) :
    rstripWS (45 :: 45 :: (b ++ [45, 45, 13, 10])) =
      45 :: 45 :: (b ++ [45, 45]) := by
  simp [rstripWS, List.dropWhile, isSpaceByte]

/-- Helper: `_state_output` on the content line `b"hello\r\n"` (no
transfer codec): the CRLF is withheld as the new tail and the previous
tail is flushed in front of `b"hello"`. -/
theorem state_output_hello (ext : Ext) (p : LineParser) (hc : p.codec = none) :
    LineParser.state_output ext p [104, 101, 108, 108, 111, 13, 10] =
      .ok ({ p with tail := [13, 10] },
        some (.cont (p.tail ++ [104, 101, 108, 108, 111]))) := by
  simp [LineParser.state_output, LineParser.last_part, LineParser.next_part,
    hc, pyLast2, pyDropLast2, rstripWS, List.dropWhile, isSpaceByte]

/-- Helper: `_state_output` on the terminal boundary line discards the
tail and moves to `DONE`, emitting `end`. -/
theorem state_output_lastline (ext : Ext) (p : LineParser) :
    LineParser.state_output ext p
        (45 :: 45 :: (p.boundary ++ [45, 45, 13, 10])) =
      .ok ({ p with tail := [], state_enum := .DONE }, some .end_part) := by
  simp [LineParser.state_output, LineParser.last_part, LineParser.next_part,
    rstripWS_boundaryLine]

/-- Helper: the continuation and terminal boundary markers differ (they
differ in length by two). -/
theorem next_part_ne_last_part (p : LineParser) : p.next_part ≠ p.last_part := by
  intro h
  have := congrArg List.length h
  simp [LineParser.last_part] at this

/-- C1.  The line-splitting stage is **not** chunk-size independent:
feeding `b"ab\ncd\n"` as the chunks `b"ab"`, `b"\n"`, `b"cd\n"` (then
the flushing empty chunk) emits `[b"ab\n", b"abcd\n", b"ab"]` — the
bytes `"ab"` are duplicated because `feed` never clears
`_leftover_buffer` once the pending line completes — while feeding the
same bytes in a single chunk emits `[b"ab\n", b"cd\n", b""]`.  The two
runs differ, refuting chunk-size independence of the stage and hence of
`MultiPartParser.parse` over it. -/
theorem claim1_linesplitter_chunk_dependence :
    splitterRun [[97, 98], [10], [99, 100, 10], []] =
      [[97, 98, 10], [97, 98, 99, 100, 10], [97, 98]] ∧
    splitterRun [[97, 98, 10, 99, 100, 10], []] =
      [[97, 98, 10], [99, 100, 10], []] ∧
    splitterRun [[97, 98], [10], [99, 100, 10], []] ≠
      splitterRun [[97, 98, 10, 99, 100, 10], []] := by
  refine ⟨by decide, by decide, by decide⟩

/-- C3.  `MultiPartParser.parse` never invokes `validate_boundary`:
with the empty boundary `b""` (which `validate_boundary` would reject
with "Missing boundary") and the degenerate stream `b"----\r\n"`, the
parse reads the stream and returns successfully with empty field and
file maps instead of raising `InvalidBoundary` before any read. -/
theorem claim3_parse_skips_boundary_validation :
    validate_boundary {} [] = .error .missingBoundary ∧
    parse extDummy {} [[45, 45, 45, 45, 13, 10]] [] = .ok ([], []) := by
  refine ⟨by decide, by decide⟩

/-- C4.  Header folding diverges between the two header parsers: on the
block `"X-Custom: line1\r\n"` + `" line2\r\n"` (+ blank line),
`parse_multipart_headers` (used by `parse_lines`) folds to the single
pair `("X-Custom", "line1\n line2")`, but `LineParser._state_headers`
(used by `MultiPartParser.parse`, and documented to generate the same
output as `parse_lines`) silently drops the space-led continuation
line, and folds a tab-led continuation without the inserted space
(`"line1\nline2"`). -/
theorem claim4_header_folding_divergence :
    parse_multipart_headers
        [strBytes "X-Custom: line1\r\n", strBytes " line2\r\n", [13, 10]] =
      .ok [("X-Custom", "line1\n line2")] ∧
    LineParser.feedLines extDummy
        ⟨[66], .HEADERS, [], false, [], none, none, none⟩
        [strBytes "X-Custom: line1\r\n", strBytes " line2\r\n"] =
      .ok (⟨[66], .HEADERS, [("X-Custom", "line1")], false, [], none, none,
        none⟩, []) ∧
    LineParser.feedLines extDummy
        ⟨[66], .HEADERS, [], false, [], none, none, none⟩
        [strBytes "X-Custom: line1\r\n", strBytes "\tline2\r\n"] =
      .ok (⟨[66], .HEADERS, [("X-Custom", "line1\nline2")], false, [], none,
        none, none⟩, []) := by
  refine ⟨by decide, by decide, by decide⟩

/-- C5 (counterexample).  In the `DONE` state `feed` is not output-free:
feeding the non-empty epilogue line `b"x\r\n"` yields the line back
(`_state_done` returns it and `feed` yields any truthy return), so the
claim that every post-`DONE` feed emits no events is false. -/
theorem claim5_done_echo_counterexample :
    LineParser.feed extDummy ⟨[66], .DONE, [], false, [], none, none, none⟩
        [120, 13, 10] ≠
      .ok (⟨[66], .DONE, [], false, [], none, none, none⟩, []) := by
  decide

/-- C5 (amended).  The `DONE` state is terminal and state-inert — every
subsequent `feed` leaves the parser unchanged and emits no
begin/cont/end event — but it is not silent: each non-empty line fed is
yielded back verbatim (empty lines yield nothing). -/
theorem claim5_done_state_inert_amended (ext : Ext) (b : Bytes)
    (hs : List (String × String)) (ho : Bool) (t : Bytes)
    (n f : Option String) (c : Option String) (line : Bytes) :
    LineParser.feed ext ⟨b, .DONE, hs, ho, t, n, f, c⟩ line =
      .ok (⟨b, .DONE, hs, ho, t, n, f, c⟩,
        if line.isEmpty then [] else [.raw line]) := by
  rfl

/-- C6 (counterexample).  `Headers.__eq__` is set-based, not
multiset-based: a collection holding the pair `("a", "1")` twice
compares equal to one holding it once, although their multisets of
pairs differ. -/
theorem claim6_multiset_counterexample :
    headersEqPy [("a", "1"), ("a", "1")] [("a", "1")] = true ∧
    ([("a", "1"), ("a", "1")].map lowered).count ("a", "1") ≠
      ([("a", "1")].map lowered).count ("a", "1") := by
  refine ⟨by decide, by decide⟩

/-- C6 (amended).  `Headers.__eq__` compares the *sets* of pairs with
case-folded keys: `A == B` holds iff every lowered pair of `A` occurs
in `B` and vice versa, with multiplicities ignored. -/
theorem claim6_headers_eq_set_based (a b : List (String × String)) :
    headersEqPy a b = true ↔
      (∀ p, p ∈ a.map lowered ↔ p ∈ b.map lowered) := by
  constructor
  · intro h p
    rcases Bool.and_eq_true .. |>.mp h with ⟨h1, h2⟩
    constructor
    · intro hp
      have := (List.all_eq_true.mp h1) p hp
      simpa using this
    · intro hp
      have := (List.all_eq_true.mp h2) p hp
      simpa using this
  · intro h
    refine Bool.and_eq_true .. |>.mpr ⟨?_, ?_⟩
    · exact List.all_eq_true.mpr fun p hp => by
        simpa using (h p).mp hp
    · exact List.all_eq_true.mpr fun p hp => by
        simpa using (h p).mpr hp

/-- C6 (witness): the amended equivalence applied at a concrete pair of
collections. -/
theorem claim6_witness :
    headersEqPy [("a", "1")] [("a", "1")] = true :=
  (claim6_headers_eq_set_based [("a", "1")] [("a", "1")]).mpr
    (fun _ => Iff.rfl)

/-- C8 (counterexample).  A body line equal to the boundary followed by
a trailing space before the CRLF (`b"--B \r\n"`, boundary `b"B"`) is
classified as the continuation boundary by `_state_output` (which uses
`line.rstrip()`, stripping *all* trailing whitespace), although the
line with only its trailing CR/LF removed (`b"--B "`) matches neither
boundary form — so by the claim it would have to be body content. -/
theorem claim8_trailing_ws_counterexample :
    LineParser.state_output extDummy
        ⟨[66], .OUTPUT, [], false, [], none, none, none⟩
        [45, 45, 66, 32, 13, 10] =
      .ok (⟨[66], .HEADERS, [], false, [], none, none, none⟩,
        some .end_part) ∧
    rstripCRLF [45, 45, 66, 32, 13, 10] ≠ [45, 45, 66] ∧
    rstripCRLF [45, 45, 66, 32, 13, 10] ≠ [45, 45, 66, 45, 45] := by
  refine ⟨by decide, by decide, by decide⟩

/-- C2.  Boundary CRLF exactness: for any boundary, from the
body-reading state of a fresh part (empty tail, no transfer codec),
feeding `b"hello\r\n"` and then the terminal boundary line emits
exactly one content event carrying `b"hello"` — the CRLF is withheld as
the tail and discarded by the boundary — followed by the `end`
event. -/
theorem claim2_boundary_crlf_exactness (ext : Ext) (b : Bytes)
    (hs : List (String × String)) (ho : Bool) (n f : Option String) :
    LineParser.feedLines ext ⟨b, .OUTPUT, hs, ho, [], n, f, none⟩
        [[104, 101, 108, 108, 111, 13, 10], [45, 45] ++ b ++ [45, 45, 13, 10]] =
      .ok (⟨b, .DONE, hs, ho, [], n, f, none⟩,
        [.cont [104, 101, 108, 108, 111], .end_part]) := by
  have h1 := state_output_hello ext ⟨b, .OUTPUT, hs, ho, [], n, f, none⟩ rfl
  have h2 := state_output_lastline ext ⟨b, .OUTPUT, hs, ho, [13, 10], n, f, none⟩
  simp only [LineParser.feedLines, LineParser.feed] at h1 h2 ⊢
  simp [h1, h2, LineParser.feedLines, LineParser.feed, Except.map,
    Bind.bind, Except.bind]

/-- C7.  `Headers.set(key, value)`: after the call exactly one pair
matches `key` (case-insensitively), namely `(key, value)`; the
non-matching pairs are exactly the original ones in their original
order; when no pair matched, the new pair is appended at the end; and
when the first match was at index `i`, the new pair sits at index `i`
with the prefix before it untouched. -/
theorem claim7_headers_set_spec (l : List (String × String))
    (key val : String) :
    ((hset key val l).filter (matchesKey key) = [(key, val)]) ∧
    ((hset key val l).filter (fun t => !matchesKey key t) =
      l.filter (fun t => !matchesKey key t)) ∧
    (l.findIdx? (matchesKey key) = none →
      hset key val l = l ++ [(key, val)]) ∧
    (∀ i, l.findIdx? (matchesKey key) = some i →
      (hset key val l).findIdx? (matchesKey key) = some i ∧
      (hset key val l).take i = l.take i ∧
      (hset key val l)[i]? = some (key, val)) := by
  have hkv : matchesKey key (key, val) = true := by simp [matchesKey]
  induction l with
  | nil =>
    refine ⟨by simp [hset, hkv], by simp [hset, hkv], fun _ => rfl, ?_⟩
    intro i h
    simp at h
  | cons p rest ih =>
    by_cases hp : matchesKey key p
    · refine ⟨?_, ?_, ?_, ?_⟩
      · simp [hset, hp, List.filter_cons, hkv, filter_not_filter]
      · simp [hset, hp, List.filter_cons, hkv, filter_idem]
      · intro h
        simp [List.findIdx?_cons, hp] at h
      · intro i h
        simp [List.findIdx?_cons, hp] at h
        subst h
        refine ⟨by simp [hset, hp, List.findIdx?_cons, hkv], by simp, ?_⟩
        simp [hset, hp]
    · refine ⟨?_, ?_, ?_, ?_⟩
      · simp [hset, hp, List.filter_cons, ih.1]
      · simp [hset, hp, List.filter_cons, ih.2.1]
      · intro h
        simp only [List.findIdx?_cons, hp, if_false, Bool.false_eq_true,
          List.findIdx?_start_succ, Option.map_eq_none'] at h
        simp [hset, hp, ih.2.2.1 h]
      · intro i h
        simp only [List.findIdx?_cons, hp, if_false, Bool.false_eq_true,
          List.findIdx?_start_succ, Option.map_eq_some'] at h
        rcases h with ⟨j, hj, rfl⟩
        rcases ih.2.2.2 j hj with ⟨h1, h2, h3⟩
        refine ⟨?_, ?_, ?_⟩
        · simp [hset, hp, List.findIdx?_cons, List.findIdx?_start_succ, h1]
        · simp [hset, hp, List.take_succ_cons, h2]
        · simp [hset, hp, h3]

/-- C7 (witness): `set("a", "9")` on `[("A","1"),("b","2"),("a","3")]`,
with every hypothesis discharged at the concrete input. -/
theorem claim7_witness :
    ((hset "a" "9" [("A", "1"), ("b", "2"), ("a", "3")]).filter
        (matchesKey "a") = [("a", "9")]) ∧
    ((hset "a" "9" [("A", "1"), ("b", "2"), ("a", "3")]).filter
        (fun t => !matchesKey "a" t) = [("b", "2")]) ∧
    ((hset "a" "9" [("A", "1"), ("b", "2"), ("a", "3")]).findIdx?
        (matchesKey "a") = some 0 ∧
      (hset "a" "9" [("A", "1"), ("b", "2"), ("a", "3")]).take 0 = [] ∧
      (hset "a" "9" [("A", "1"), ("b", "2"), ("a", "3")])[0]? =
        some ("a", "9")) ∧
    hset "a" "9" [("b", "2")] = [("b", "2"), ("a", "9")] :=
  ⟨(claim7_headers_set_spec [("A", "1"), ("b", "2"), ("a", "3")] "a" "9").1,
   (claim7_headers_set_spec [("A", "1"), ("b", "2"), ("a", "3")] "a" "9").2.1,
   (claim7_headers_set_spec [("A", "1"), ("b", "2"), ("a", "3")] "a"
      "9").2.2.2 0 (by decide),
   (claim7_headers_set_spec [("b", "2")] "a" "9").2.2.1 (by decide)⟩

/-- C8 (amended).  In the body-reading state (no transfer codec), a
non-empty line is classified as a boundary — emitting `end` — **iff**
the line with *all* trailing ASCII whitespace stripped
(`line.rstrip()`) equals `--BOUNDARY--` or `--BOUNDARY`; a match with
the terminal form goes to `DONE` and a match with the continuation form
goes back to `HEADERS`, both discarding the withheld tail.  Trailing
spaces or tabs before the CRLF therefore do not prevent boundary
recognition. -/
theorem claim8_boundary_rstrip_amended (ext : Ext) (p : LineParser)
    (line : Bytes) (hne : line ≠ []) (hc : p.codec = none) :
    ((∃ q, LineParser.state_output ext p line = .ok (q, some .end_part)) ↔
      (rstripWS line = p.last_part ∨ rstripWS line = p.next_part)) ∧
    (rstripWS line = p.last_part →
      LineParser.state_output ext p line =
        .ok ({ p with tail := [], state_enum := .DONE }, some .end_part)) ∧
    (rstripWS line ≠ p.last_part → rstripWS line = p.next_part →
      LineParser.state_output ext p line =
        .ok ({ p with tail := [], headers := [], state_enum := .HEADERS },
          some .end_part)) := by
  have hq : line.isEmpty = false := by
    cases line with
    | nil => exact absurd rfl hne
    | cons a l => rfl
  by_cases hl : rstripWS line = p.last_part
  · refine ⟨⟨fun _ => Or.inl hl, fun _ => ?_⟩, fun _ => ?_, fun h => absurd hl h⟩
    · exact ⟨{ p with tail := [], state_enum := .DONE }, by
        simp [LineParser.state_output, hq, hl]⟩
    · simp [LineParser.state_output, hq, hl]
  · by_cases hn : rstripWS line = p.next_part
    · rw [hn] at hl
      refine ⟨⟨fun _ => Or.inr hn, fun _ => ?_⟩,
        fun h => absurd (hn.symm.trans h) hl, fun _ _ => ?_⟩
      · exact ⟨{ p with tail := [], headers := [], state_enum := .HEADERS }, by
          simp [LineParser.state_output, hq, hn, hl]⟩
      · simp [LineParser.state_output, hq, hn, hl]
    · refine ⟨⟨fun h => ?_, fun h => absurd h (by simp [hl, hn])⟩,
        fun h => absurd h hl, fun _ h => absurd h hn⟩
      rcases h with ⟨q, hq2⟩
      simp only [LineParser.state_output, hq, hl, hn, hc, Bool.false_eq_true,
        if_false, if_neg] at hq2
      split at hq2 <;> try split at hq2
      all_goals simp_all

/-- C8 (witness): the amended classification applied to the concrete
terminal boundary line `b"--B--\r\n"` with boundary `b"B"`. -/
theorem claim8_witness :
    LineParser.state_output extDummy
        ⟨[66], .OUTPUT, [], false, [], none, none, none⟩
        [45, 45, 66, 45, 45, 13, 10] =
      .ok (⟨[66], .DONE, [], false, [], none, none, none⟩,
        some .end_part) :=
  (claim8_boundary_rstrip_amended extDummy
    ⟨[66], .OUTPUT, [], false, [], none, none, none⟩
    [45, 45, 66, 45, 45, 13, 10] (by decide) rfl).2.1 (by decide)

/-- C9.  The `parse_parts` in-memory counter accumulates across parts:
every successfully consumed event leaves `in_memory` no smaller, and an
`end` event leaves the whole loop state unchanged (no reset); with
`max_form_memory_size = 5`, two form fields of three bytes each abort
with `RequestEntityTooLarge`, although each of the two fields parses
fine on its own. -/
theorem claim9_memory_accumulates :
    (∀ cfg st ev st' outs, ppConsume cfg st ev = .ok (st', outs) →
      st.in_memory ≤ st'.in_memory ∧ (ev = .end_part → st' = st)) ∧
    (ppRunEvents ⟨some 5, 65536⟩ PartsState.init
      [.begin_form [] (some "f1"), .cont [97, 97, 97], .end_part,
       .begin_form [] (some "f2"), .cont [98, 98, 98], .end_part] =
      .error .requestEntityTooLarge) ∧
    (ppRunEvents ⟨some 5, 65536⟩ PartsState.init
      [.begin_form [] (some "f1"), .cont [97, 97, 97], .end_part] =
      .ok (⟨3, some false, some true, some [[97, 97, 97]], some (some "f1"),
        none, some []⟩, [.form (some "f1") [97, 97, 97]])) ∧
    (ppRunEvents ⟨some 5, 65536⟩ PartsState.init
      [.begin_form [] (some "f2"), .cont [98, 98, 98], .end_part] =
      .ok (⟨3, some false, some true, some [[98, 98, 98]], some (some "f2"),
        none, some []⟩, [.form (some "f2") [98, 98, 98]])) := by
  refine ⟨?_, by decide, by decide, by decide⟩
  intro cfg st ev st' outs h
  cases ev with
  | begin_file hs n f =>
    obtain ⟨rfl, rfl⟩ := Prod.mk.inj (Except.ok.inj h)
    exact ⟨Nat.le_refl _, fun he => by simp at he⟩
  | begin_form hs n =>
    obtain ⟨rfl, rfl⟩ := Prod.mk.inj (Except.ok.inj h)
    exact ⟨Nat.le_refl _, fun he => by simp at he⟩
  | raw l =>
    simp only [ppConsume] at h
    split at h
    · obtain ⟨rfl, rfl⟩ := Prod.mk.inj (Except.ok.inj h)
      exact ⟨Nat.le_refl _, fun he => by simp at he⟩
    · simp at h
  | headersOut hs =>
    simp only [ppConsume] at h
    split at h
    · obtain ⟨rfl, rfl⟩ := Prod.mk.inj (Except.ok.inj h)
      exact ⟨Nat.le_refl _, fun he => by simp at he⟩
    · simp at h
  | cont ell =>
    simp only [ppConsume] at h
    repeat' split at h
    all_goals simp at h
    all_goals obtain ⟨rfl, rfl⟩ := h
    all_goals refine ⟨?_, fun he => by simp at he⟩
    all_goals first
      | exact Nat.le_refl _
      | exact Nat.le_add_right _ _
  | end_part =>
    simp only [ppConsume] at h
    repeat' split at h
    all_goals simp at h
    all_goals obtain ⟨rfl, rfl⟩ := h
    all_goals exact ⟨Nat.le_refl _, fun _ => rfl⟩

/-- C9 (witness): the no-decrease property applied to a concrete
guarded `cont` event, hypotheses discharged by evaluation. -/
theorem claim9_witness :
    (⟨0, some false, some true, some [], some (some "f1"), none,
      some []⟩ : PartsState).in_memory ≤
      (⟨3, some false, some true, some [[97, 97, 97]], some (some "f1"),
        none, some []⟩ : PartsState).in_memory :=
  (claim9_memory_accumulates.1 ⟨some 5, 65536⟩
    ⟨0, some false, some true, some [], some (some "f1"), none, some []⟩
    (.cont [97, 97, 97])
    ⟨3, some false, some true, some [[97, 97, 97]], some (some "f1"), none,
      some []⟩
    [] (by decide)).1

/-- Helper: a `splitOnP` result that is a single segment means the
whole list with no separator inside. -/
theorem splitOnP_single_inv {α : Type} (p : α → Bool) :
    ∀ (l y : List α), l.splitOnP p = [y] → y = l ∧ ∀ x ∈ l, ¬ p x := by
  intro l
  induction l with
  | nil =>
    intro y h
    simp [List.splitOnP_nil] at h
    exact ⟨h, by simp⟩
  | cons a l ih =>
    intro y h
    rw [List.splitOnP_cons] at h
    by_cases hp : p a
    · rw [if_pos hp] at h
      cases hsp : l.splitOnP p with
      | nil => exact absurd hsp (List.splitOnP_ne_nil _ _)
      | cons z zs => rw [hsp] at h; simp at h
    · rw [if_neg hp] at h
      cases hsp : l.splitOnP p with
      | nil => exact absurd hsp (List.splitOnP_ne_nil _ _)
      | cons z zs =>
        rw [hsp] at h
        simp [List.modifyHead] at h
        obtain ⟨hy, hzs⟩ := h
        subst hzs
        obtain ⟨hz, hnp⟩ := ih z hsp
        subst hz
        refine ⟨hy.symm, ?_⟩
        intro x hx
        rcases List.mem_cons.mp hx with rfl | hx
        · exact hp
        · exact hnp x hx

/-- Helper: Python's `filename.split("\\")[-1]` is exactly the last
backslash-separated component. -/
theorem splitOn_last_eq_lastComponent : ∀ f : List Char,
    ((f.splitOn '\\').getLast?).getD [] = lastComponentSpec f := by
  intro f
  induction f with
  | nil => rfl
  | cons c rest ih =>
    show (((c :: rest).splitOnP (· == '\\')).getLast?).getD [] = _
    rw [List.splitOnP_cons]
    by_cases hc : c = '\\'
    · subst hc
      rw [if_pos (by simp)]
      obtain ⟨z, zs, hsp⟩ :=
        List.exists_cons_of_ne_nil (List.splitOnP_ne_nil (· == '\\') rest)
      rw [hsp, List.getLast?_cons_cons, ← hsp]
      simpa [List.splitOn, lastComponentSpec] using ih
    · rw [if_neg (by simp [hc])]
      obtain ⟨z, zs, hsp⟩ :=
        List.exists_cons_of_ne_nil (List.splitOnP_ne_nil (· == '\\') rest)
      by_cases hm : '\\' ∈ rest
      · cases zs with
        | nil =>
          obtain ⟨rfl, hnp⟩ := splitOnP_single_inv (· == '\\') rest z hsp
          exact absurd (beq_self_eq_true '\\') (hnp '\\' hm)
        | cons z' zs' =>
          rw [hsp]
          simp only [List.modifyHead, List.getLast?_cons_cons]
          rw [show (z' :: zs').getLast? = ((z :: z' :: zs').getLast?) from
            (List.getLast?_cons_cons ..).symm, ← hsp]
          simpa [List.splitOn, lastComponentSpec, hc, hm] using ih
      · have hnone : rest.splitOnP (· == '\\') = [rest] := by
          apply List.splitOnP_eq_single
          intro x hx hb
          exact hm (by rw [← eq_of_beq hb] at hm ⊢; exact hx)
        rw [hnone]
        simp [lastComponentSpec, hc, hm, List.modifyHead]

/-- Helper: the last component holds no backslash. -/
theorem lastComponentSpec_no_backslash : ∀ f : List Char,
    '\\' ∉ lastComponentSpec f := by
  intro f
  induction f with
  | nil => simp [lastComponentSpec]
  | cons c rest ih =>
    by_cases hc : c = '\\'
    · simpa [lastComponentSpec, hc] using ih
    · by_cases hm : '\\' ∈ rest
      · simpa [lastComponentSpec, hc, hm] using ih
      · simp [lastComponentSpec, hc, hm]
        exact fun h => hc h.symm

/-- C10.  `_fix_ie_filename`: exactly when the transmitted name looks
like a Windows absolute path — second and third characters `:\`, or
first two characters `\\` — the stored name is reduced to the last
backslash-separated component (which holds no backslash); every other
name is returned unchanged. -/
theorem claim10_fix_ie_filename (f : List Char) :
    (((f.drop 1).take 2 = [':', '\\'] ∨ f.take 2 = ['\\', '\\']) →
      fix_ie_filename f = lastComponentSpec f ∧
        '\\' ∉ fix_ie_filename f) ∧
    (¬((f.drop 1).take 2 = [':', '\\'] ∨ f.take 2 = ['\\', '\\']) →
      fix_ie_filename f = f) := by
  constructor
  · intro h
    have h' : (f.tail.take 2 = [':', '\\'] ∨ f.take 2 = ['\\', '\\']) := by
      simpa [List.drop_one] using h
    have he : fix_ie_filename f = lastComponentSpec f := by
      rcases h' with h' | h' <;>
        simp [fix_ie_filename, List.drop_one, h', splitOn_last_eq_lastComponent]
    exact ⟨he, he ▸ lastComponentSpec_no_backslash f⟩
  · intro h
    rw [not_or] at h
    have h1 : ¬(f.tail.take 2 = [':', '\\']) := by
      simpa [List.drop_one] using h.1
    simp [fix_ie_filename, List.drop_one, h1, h.2]

/-- C10 (witness): the fix applied to a drive path, a UNC path and a
plain name. -/
theorem claim10_witness :
    (fix_ie_filename ("C:\\dir\\x.txt".toList) =
        lastComponentSpec ("C:\\dir\\x.txt".toList) ∧
      '\\' ∉ fix_ie_filename ("C:\\dir\\x.txt".toList)) ∧
    (fix_ie_filename ("\\\\srv\\share\\y".toList) =
        lastComponentSpec ("\\\\srv\\share\\y".toList) ∧
      '\\' ∉ fix_ie_filename ("\\\\srv\\share\\y".toList)) ∧
    fix_ie_filename ("plain.txt".toList) = "plain.txt".toList :=
  ⟨(claim10_fix_ie_filename _).1 (Or.inl (by decide)),
   (claim10_fix_ie_filename _).1 (Or.inr (by decide)),
   (claim10_fix_ie_filename _).2 (by decide)⟩

end Werkzeug
